import Mathlib

/-!
Verification model of the ioprocess Python client engine
(src/bindings/python/ioprocess/__init__.py).

Byte strings are modelled as `List Nat` (one `Nat` per byte).  JSON values
carried in requests/responses are modelled by the small inductive `Val`;
the engine never inspects them, so the restriction is harmless.  Each
definition is a direct translation of the Python function named in its
doc comment.
-/

namespace IOProcessModel

abbrev Bytes := List Nat

/-- JSON-like values carried in the `result` field of responses.  The engine
treats them opaquely. -/
inductive Val where
  | null
  | num (n : Int)
  | str (s : String)
  deriving DecidableEq, Repr

/-- A decoded response dictionary `{id?, errcode?, errstr?, result?}`
(`__init__.py`, produced by `json.loads` at line 284, or synthetically at
lines 172-175).  All keys are optional, as in a Python dict. -/
structure Resp where
  id : Option Nat
  errcode : Option Int
  errstr : Option String
  result : Option Val
  deriving DecidableEq, Repr

/-- `ERR_IOPROCESS_CRASH` (`__init__.py` line 46). -/
def ERR_IOPROCESS_CRASH : Int := 100001

/-! ### DataSender (`__init__.py` lines 245-256)

`DataSender.process` performs `n = os.write(fd, dataPending)`,
drops the written prefix and returns `False`; it returns `True` only when
called while `dataPending` is already empty.  The model takes the number of
bytes `n` the descriptor accepted as a parameter. -/

/-- Model of `DataSender.process` (lines 250-256): state is the pending
byte string; `n` is what `os.write` returned.  Result: new pending bytes and
the boolean returned by `process`. -/
def dataSenderProcess (pending : Bytes) (n : Nat) : Bytes × Bool :=
  if pending = [] then (pending, true)
  else (pending.drop n, false)

/-! ### ResponseReader (`__init__.py` lines 259-292)

State: `_dataRemaining` and `_dataBuffer`.  One `process()` call does:
if `_dataRemaining == 0`, read 8 bytes and `Size.unpack` them (raising
`struct.error` if the read returned fewer than 8 bytes); then one
`os.read(fd, _dataRemaining)` (EAGAIN/EINTR retried in place), append the
bytes, decrement the counter, and report completion when it reaches zero.
The model takes the bytes actually returned by the header read and by the
payload read as parameters; `none` models the exception path
(`struct.error` propagating out of `process`). -/

structure ReaderState where
  dataRemaining : Nat
  dataBuffer : Bytes
  deriving DecidableEq, Repr

/-- Little-endian value of a byte string (model of `struct.Struct("@Q")`
unpacking on a little-endian host). -/
def le64 (b : Bytes) : Nat :=
  b.foldr (fun x a => x + 256 * a) 0

/-- `Size.pack`: 8-byte little-endian encoding of a length
(`__init__.py` line 413 packs, line 269 unpacks). -/
def pack8 (n : Nat) : Bytes :=
  [n % 256, n / 256 % 256, n / 256 ^ 2 % 256, n / 256 ^ 3 % 256,
   n / 256 ^ 4 % 256, n / 256 ^ 5 % 256, n / 256 ^ 6 % 256, n / 256 ^ 7 % 256]

/-- `Size.unpack` applied to the bytes a header read returned: raises
(`none`) unless exactly 8 bytes were read (line 269). -/
def unpackSize (b : Bytes) : Option Nat :=
  if b.length = 8 then some (le64 b) else none

/-- Model of `ResponseReader.process` (lines 267-289).  `headerRead` is what
`os.read(fd, 8)` returned (consulted only when `dataRemaining = 0`);
`payloadRead` is what `os.read(fd, dataRemaining)` returned.  Returns `none`
when `struct.error` propagates (short header read); otherwise the new state
and, when the message completed, the full buffered payload (the code then
appends `json.loads(buffer)` to `_responses` and resets the buffer; equal
buffers decode to equal responses, so the model keeps the raw payload). -/
def readerProcess (s : ReaderState) (headerRead payloadRead : Bytes) :
    Option (ReaderState × Option Bytes) :=
  match (if s.dataRemaining = 0 then unpackSize headerRead
         else some s.dataRemaining) with
  | none => none
  | some rem =>
    let rem2 := rem - payloadRead.length
    let buffer2 := s.dataBuffer ++ payloadRead
    if rem2 = 0 then some (⟨0, []⟩, some buffer2)
    else some (⟨rem2, buffer2⟩, none)

/-- Run `process()` over a sequence of calls; each call is given the header
bytes and payload bytes its reads return.  Collects completed messages in
order. -/
def readerRunAux : ReaderState → List (Bytes × Bytes) →
    Option (ReaderState × List Bytes)
  | s, [] => some (s, [])
  | s, (h, p) :: rest =>
    match readerProcess s h p with
    | none => none
    | some (s2, out) =>
      match readerRunAux s2 rest with
      | none => none
      | some (s3, outs) => some (s3, out.toList ++ outs)

/-- Deliver one framed message whose payload arrives in chunks `cs`: the
first `process()` call reads the whole 8-byte header `hd` plus the first
chunk, later calls read the later chunks. -/
def readerRun (hd : Bytes) (cs : List Bytes) : Option (ReaderState × List Bytes) :=
  match cs with
  | [] => readerRunAux ⟨0, []⟩ [(hd, [])]
  | c :: rest => readerRunAux ⟨0, []⟩ ((hd, c) :: rest.map (fun c2 => ([], c2)))

/-- The engine's reaction to one `readPipe` readiness event
(`__init__.py` lines 132-146): an exception out of `process()` enters the
`except:` branch (crash path, lines 170-175); `process()` returning `False`
makes `_communicate` `return` (line 134), quietly ending the generation;
`True` delivers the popped response. -/
inductive EngineReadAction where
  | crash
  | quietReturn
  | deliver (payload : Bytes)
  deriving DecidableEq, Repr

/-- Dispatch on the outcome of `responseReader.process()` as `_communicate`
does at lines 133-141. -/
def engineOnReadPipe (r : Option (ReaderState × Option Bytes)) : EngineReadAction :=
  match r with
  | none => .crash
  | some (_, none) => .quietReturn
  | some (_, some payload) => .deliver payload

/-! ### Log demultiplexer (`IOProcess._processLogs`, `__init__.py` lines 418-445)

`_processLogs(data)` prepends the buffered partial line, runs
`data.splitlines(True)` (`bytes.splitlines` keeps the line ends and splits
on `\n` = 10, `\r` = 13 and `\r\n`), and walks the lines: a line not ending
in `\n` becomes the new partial buffer and the method returns (dropping any
later lines of this call); a `\n`-terminated line is stripped and split on
`"|"` with maxsplit 2; unpacking into three names raises unless there are
exactly three parts, in which case a malformed-log warning is emitted;
otherwise the message is routed to the sink method matching the level, with
unknown levels falling through silently.  Lines are modelled as raw byte
strings (the code decodes with `errors="replace"` purely for logging; on
the ASCII bytes relevant to stripping, the `"|"` delimiter and the four
level names, decoding is the identity). -/

inductive LogLevel where
  | error
  | warning
  | debug
  | info
  deriving DecidableEq, Repr

/-- One observable effect of `_processLogs` on a log sink. -/
inductive LogEvent where
  | toSink (lvl : LogLevel) (msg : Bytes)
  | invalidWarning (line : Bytes)
  deriving DecidableEq, Repr

/-- ASCII codes of `"ERROR"`. -/
def ERRORb : Bytes := [69, 82, 82, 79, 82]

/-- ASCII codes of `"WARNING"`. -/
def WARNINGb : Bytes := [87, 65, 82, 78, 73, 78, 71]

/-- ASCII codes of `"DEBUG"`. -/
def DEBUGb : Bytes := [68, 69, 66, 85, 71]

/-- ASCII codes of `"INFO"`. -/
def INFOb : Bytes := [73, 78, 70, 79]

/-- Bytes stripped by `str.strip()` in the ASCII range
(`\t \n \v \f \r` `\x1c`-`\x1f` and space). -/
def isSpaceB (b : Nat) : Bool :=
  b = 9 || b = 10 || b = 11 || b = 12 || b = 13 ||
  b = 28 || b = 29 || b = 30 || b = 31 || b = 32

/-- `line.strip()`. -/
def stripB (s : Bytes) : Bytes :=
  ((s.dropWhile isSpaceB).reverse.dropWhile isSpaceB).reverse

/-- Split at the first `"|"` (byte 124), if any. -/
def splitFirstPipe : Bytes → Option (Bytes × Bytes)
  | [] => none
  | c :: rest =>
    if c = 124 then some ([], rest)
    else
      match splitFirstPipe rest with
      | none => none
      | some (a, b) => some (c :: a, b)

/-- `s.split("|", 2)`: at most two splits, hence one, two or three parts. -/
def splitPipe2 (s : Bytes) : List Bytes :=
  match splitFirstPipe s with
  | none => [s]
  | some (a, r) =>
    match splitFirstPipe r with
    | none => [a, r]
    | some (b, r2) => [a, b, r2]

/-- Handling of one complete (`\n`-terminated) log line
(lines 430-445): `none` means the line produced no event at all. -/
def processLine (line : Bytes) : Option LogEvent :=
  match splitPipe2 (stripB line) with
  | [lvl, _dom, msg] =>
    if lvl = ERRORb then some (.toSink .error msg)
    else if lvl = WARNINGb then some (.toSink .warning msg)
    else if lvl = DEBUGb then some (.toSink .debug msg)
    else if lvl = INFOb then some (.toSink .info msg)
    else none
  | _ => some (.invalidWarning line)

/-- `bytes.splitlines(keepends=True)`: first argument is the accumulated
current line, second the input still to scan.  Terminators are `\n`, `\r`
and `\r\n`, kept on the line; a last line without terminator is kept too. -/
def splitLinesAux : Bytes → Bytes → List Bytes
  | cur, [] => if cur = [] then [] else [cur]
  | cur, 13 :: 10 :: rest => (cur ++ [13, 10]) :: splitLinesAux [] rest
  | cur, 13 :: rest => (cur ++ [13]) :: splitLinesAux [] rest
  | cur, 10 :: rest => (cur ++ [10]) :: splitLinesAux [] rest
  | cur, c :: rest => splitLinesAux (cur ++ [c]) rest

/-- The line loop of `_processLogs` (lines 422-445): returns the new
partial-line buffer and the emitted events, in order.  A line not ending in
`\n` becomes the buffer and everything after it is dropped (the `return` at
line 426). -/
def goLines : List Bytes → Bytes × List LogEvent
  | [] => ([], [])
  | l :: rest =>
    if l.getLast? = some 10 then
      ((goLines rest).1, (processLine l).toList ++ (goLines rest).2)
    else (l, [])

/-- One `_processLogs(data)` call with partial-line buffer `pbuf`
(lines 418-445). -/
def feedOne (pbuf : Bytes) (data : Bytes) : Bytes × List LogEvent :=
  goLines (splitLinesAux [] (pbuf ++ data))

/-- Successive `_processLogs` calls, one per chunk, threading the
partial-line buffer and concatenating the emitted events. -/
def feedMany (pbuf : Bytes) : List Bytes → Bytes × List LogEvent
  | [] => (pbuf, [])
  | c :: rest =>
    ((feedMany (feedOne pbuf c).1 rest).1,
     (feedOne pbuf c).2 ++ (feedMany (feedOne pbuf c).1 rest).2)

/-- Reference processor for carriage-return-free streams: scan byte by
byte, emitting `processLine` of each `\n`-terminated line and keeping the
unterminated tail as the buffer.  Used to state what `_processLogs`
computes on `\r`-free input. -/
def scanNl : Bytes → Bytes → Bytes × List LogEvent
  | cur, [] => (cur, [])
  | cur, c :: rest =>
    if c = 10 then
      ((scanNl [] rest).1, (processLine (cur ++ [10])).toList ++ (scanNl [] rest).2)
    else scanNl (cur ++ [c]) rest

/-- The complete (`\n`-terminated) lines of a stream, terminators kept,
under the `\n`-only line discipline. -/
def nlLines : Bytes → Bytes → List Bytes
  | _, [] => []
  | cur, c :: rest =>
    if c = 10 then (cur ++ [10]) :: nlLines [] rest
    else nlLines (cur ++ [c]) rest

/-! ### Pending request table, crash path (`_communicate`), caller side

`pendingRequests` is a dict local to `_communicate` (line 86), modelled as
an association list `reqId -> CmdResultM`.  `CmdResult` (lines 239-242)
holds a completion `Event` and an optional result. -/

/-- Model of `CmdResult` (lines 239-242): `event` is whether the `Event`
is set. -/
structure CmdResultM where
  event : Bool
  result : Option Resp
  deriving DecidableEq, Repr

/-- The synthetic response built in the crash path
(lines 172-175): `{"errcode": ERR_IOPROCESS_CRASH, "errstr": "ioprocess
crashed unexpectedly"}` — no `id` and no `result` key. -/
def crashResponse : Resp :=
  ⟨none, some ERR_IOPROCESS_CRASH, some "ioprocess crashed unexpectedly", none⟩

/-- The `except:` branch of `_communicate` (lines 170-175): store the
synthetic crash response in every outstanding entry and set its event. -/
def failAllPending (tbl : List (Nat × CmdResultM)) : List (Nat × CmdResultM) :=
  tbl.map (fun kv => (kv.1, ⟨true, some crashResponse⟩))

/-- The tail of `_communicate`'s `finally:` block (lines 190-194): `_run()`
is invoked — starting a fresh worker generation — iff the weak reference
still resolves (`alive`) and `_isRunning` is still true. -/
def finallyRestart (alive isRunning : Bool) : Bool :=
  alive && isRunning

/-- `dict.pop(k, None)` on the association-list table: the looked-up entry
(if any) and the table without it. -/
def lookupRemove (k : Nat) : List (Nat × CmdResultM) →
    Option CmdResultM × List (Nat × CmdResultM)
  | [] => (none, [])
  | (k', e) :: rest =>
    if k' = k then (some e, rest)
    else
      let r := lookupRemove k rest
      (r.1, (k', e) :: r.2)

/-- The response-delivery branch of `_communicate` (lines 136-144): pop the
id from `pendingRequests`; if found, store the response in the entry and
set its event (second component is the resolved entry); if not found, log a
warning and discard (second component `none`). -/
def deliverResponse (tbl : List (Nat × CmdResultM)) (k : Nat) (res : Resp) :
    List (Nat × CmdResultM) × Option CmdResultM :=
  match lookupRemove k tbl with
  | (some _, rest) => (rest, some ⟨true, some res⟩)
  | (none, rest) => (rest, none)

/-- Outcome of `_sendCommand` after the wait (lines 451-461). -/
inductive SendOutcome where
  | timeout
  | oserror (errcode : Int) (errstr : String)
  | ok (v : Option Val)
  deriving DecidableEq, Repr

/-- Tail of `IOProcess._sendCommand` (lines 451-461), after
`res.event.wait(timeout)` returned: `ev` is `res.event.isSet()`, `r` is
`res.result`.  Returns `none` when the code would fault (event set but no
result stored — never happens, the engine stores the result before setting
the event).  `strerror` models `os.strerror`. -/
def sendCommandFinish (strerror : Int → String) (ev : Bool) (r : Option Resp) :
    Option SendOutcome :=
  if ev = false then some .timeout
  else
    match r with
    | none => none
    | some resp =>
      let ec := resp.errcode.getD 0
      if ec ≠ 0 then some (.oserror ec (resp.errstr.getD (strerror ec)))
      else some (.ok resp.result)

/-- The caller path of `_sendCommand` from the wait onward (lines 451-461),
threaded through the engine's pending table: no statement of `_sendCommand`
references `pendingRequests` (which is local to `_communicate`), so the
table passes through unchanged whatever the outcome. -/
def sendCommandAfterWait (tbl : List (Nat × CmdResultM))
    (strerror : Int → String) (res : CmdResultM) :
    List (Nat × CmdResultM) × Option SendOutcome :=
  (tbl, sendCommandFinish strerror res.event res.result)

/-! ### Command dispatch and request ids (`__init__.py` lines 148-169,
401-416, 447-450)

`_sendCommand` enqueues `((cmdName, args), res)` — no request id — and the
engine loop allocates the id with `_getRequestId` when it dequeues the
command.  `EngineView` combines the client-owned counter and queue with the
generation-local `pendingRequests` dict and `dataSender`. -/

/-- A command: method name and argument value. -/
abbrev Cmd := String × Val

/-- Client counter plus the engine-visible dispatch state.  `pending` maps
request ids to an index identifying the caller's `CmdResult`; `queue` holds
the enqueued `((cmdName, args), res)` pairs (note: no id component);
`sender` is the active `DataSender`, carrying the id and command it
serializes. -/
structure EngineView where
  reqId : Nat
  pending : List (Nat × Nat)
  queue : List (Cmd × Nat)
  sender : Option (Nat × Cmd)
  deriving DecidableEq, Repr

/-- `IOProcess._getRequestId` (lines 401-403): increment `_reqId` and
return it. -/
def getRequestId (reqId : Nat) : Nat :=
  reqId + 1

/-- The enqueue half of `_sendCommand` (lines 448-449):
`self._commandQueue.put(((cmdName, args), res))`.  The request-id counter
is untouched here. -/
def sendCommandEnqueue (s : EngineView) (cmd : Cmd) (resIdx : Nat) : EngineView :=
  ⟨s.reqId, s.pending, s.queue ++ [(cmd, resIdx)], s.sender⟩

/-- The wakeup-readiness branch of `_communicate` (lines 148-163): if a
`DataSender` is active, the wakeup is a no-op; else dequeue one command (if
any), allocate the next request id via `_getRequestId`, insert the entry
into `pendingRequests`, and construct the `DataSender` for the serialized
request. -/
def engineWakeup (s : EngineView) : EngineView :=
  if s.sender.isSome then s
  else
    match s.queue with
    | [] => s
    | (cmd, resIdx) :: rest =>
      let rid := getRequestId s.reqId
      ⟨rid, s.pending ++ [(rid, resIdx)], rest, some (rid, cmd)⟩

/-- The write-completion branch (lines 165-169): the `DataSender` is
dropped once the request is fully written. -/
def engineWriteDone (s : EngineView) : EngineView :=
  ⟨s.reqId, s.pending, s.queue, none⟩

/-- One full dispatch cycle: wakeup (dequeue + id allocation) followed by
the write draining to completion. -/
def engineCycle (s : EngineView) : EngineView :=
  engineWriteDone (engineWakeup s)

/-- `k` dispatch cycles. -/
def runCyclesN : Nat → EngineView → EngineView
  | 0, s => s
  | k + 1, s => runCyclesN k (engineCycle s)

/-- Generation restart as seen by the dispatch state: `_run` (lines
330-370) spawns a fresh worker and communication thread; the new
`_communicate` call starts with an empty local `pendingRequests` (line 86)
and no `dataSender` (line 85), while the client-owned `_reqId` counter and
`_commandQueue` persist (`_run` touches neither). -/
def restartView (s : EngineView) : EngineView :=
  ⟨s.reqId, [], s.queue, none⟩

/-! ### Close, ping and the engine loop liveness check
(`__init__.py` lines 109-120, 372-380, 585-598) -/

/-- The client-owned flags relevant to closing: `_isRunning` and whether
the wakeup event-pipe descriptors are still open. -/
structure ClientFlags where
  isRunning : Bool
  eventFdsOpen : Bool
  deriving DecidableEq, Repr

/-- `IOProcess.close` (lines 585-598): idempotent; the first call flips
`_isRunning` and closes both wakeup descriptors. -/
def closeClient (s : ClientFlags) : ClientFlags :=
  if s.isRunning = false then s else ⟨false, false⟩

/-- `errno.EAGAIN`. -/
def EAGAIN : Nat := 11

/-- `errno.EBADF`. -/
def EBADF : Nat := 9

/-- Result of the `os.write` in `_pingPoller`. -/
inductive WriteOutcome where
  | ok
  | err (e : Nat)
  deriving DecidableEq, Repr

/-- Writing the wakeup byte to `_eventFdSender`: once the descriptor is
closed the write fails with `EBADF`; while open, the outcome `w` is
whatever the pipe does. -/
def writeToEventFd (s : ClientFlags) (w : WriteOutcome) : WriteOutcome :=
  if s.eventFdsOpen then w else .err EBADF

/-- What `_pingPoller` raises, if anything. -/
inductive PingErr where
  | closed
  | osError (e : Nat)
  deriving DecidableEq, Repr

/-- `IOProcess._pingPoller` (lines 372-380): `EAGAIN` is swallowed; any
other `OSError` becomes `Closed("Client was closed")` when `_isRunning` is
false and is re-raised otherwise. -/
def pingPoller (isRunning : Bool) (w : WriteOutcome) : Except PingErr Unit :=
  match w with
  | .ok => .ok ()
  | .err e =>
    if e = EAGAIN then .ok ()
    else if isRunning = false then .error .closed
    else .error (.osError e)

/-- The entry of `_sendCommand` (lines 447-450): create the `CmdResult`,
enqueue the command, ping the poller.  Returns the new queue and the ping
outcome; an exception from `_pingPoller` propagates to the caller before
any wait happens (synchronously, in the calling thread). -/
def sendCommandStart (flags : ClientFlags) (queue : List (Cmd × Nat))
    (cmd : Cmd) (resIdx : Nat) (w : WriteOutcome) :
    List (Cmd × Nat) × Except PingErr Unit :=
  (queue ++ [(cmd, resIdx)], pingPoller flags.isRunning (writeToEventFd flags w))

/-- Decision taken at the top of each `_communicate` loop iteration
(lines 109-120), before any readiness event is handled. -/
inductive LoopStep where
  | exitGone
  | exitShutdown
  | proceed
  deriving DecidableEq, Repr

/-- Lines 114-120: exit if the weak reference is gone, exit (logging
"shutdown requested") if `_isRunning` is false, else handle the poll
results. -/
def loopCheck (alive isRunning : Bool) : LoopStep :=
  if alive = false then .exitGone
  else if isRunning = false then .exitShutdown
  else .proceed

/-! ## Helper lemmas -/

theorem notMem_append_single {a c : Nat} {l : Bytes} (hl : a ∉ l) (hc : c ≠ a) :
    a ∉ l ++ [c] := by
  intro h
  rcases List.mem_append.mp h with h' | h'
  · exact hl h'
  · exact hc (List.mem_singleton.mp h').symm

theorem ne_of_notMem_cons {a c : Nat} {l : Bytes} (h : a ∉ c :: l) : c ≠ a := by
  intro e
  exact h (by rw [e]; exact List.mem_cons_self _ _)

theorem notMem_of_notMem_cons {a c : Nat} {l : Bytes} (h : a ∉ c :: l) : a ∉ l :=
  fun h' => h (List.mem_cons_of_mem _ h')

theorem mem_of_getLast?_eq {l : Bytes} {a : Nat} (h : l.getLast? = some a) : a ∈ l := by
  obtain ⟨hne, he⟩ := List.mem_getLast?_eq_getLast (Option.mem_def.mpr h)
  rw [he]
  exact List.getLast_mem hne

theorem scanNl_nil (cur : Bytes) : scanNl cur [] = (cur, []) := rfl

theorem scanNl_nl (cur rest : Bytes) :
    scanNl cur (10 :: rest) =
      ((scanNl [] rest).1,
       (processLine (cur ++ [10])).toList ++ (scanNl [] rest).2) := by
  simp [scanNl]

theorem scanNl_other (cur : Bytes) {c : Nat} (rest : Bytes) (hc : c ≠ 10) :
    scanNl cur (c :: rest) = scanNl (cur ++ [c]) rest := by
  simp [scanNl, hc]

theorem splitLinesAux_nil (cur : Bytes) :
    splitLinesAux cur [] = if cur = [] then [] else [cur] := rfl

theorem splitLinesAux_nl (cur rest : Bytes) :
    splitLinesAux cur (10 :: rest) = (cur ++ [10]) :: splitLinesAux [] rest := rfl

theorem splitLinesAux_other (cur : Bytes) {c : Nat} (rest : Bytes)
    (h10 : c ≠ 10) (h13 : c ≠ 13) :
    splitLinesAux cur (c :: rest) = splitLinesAux (cur ++ [c]) rest := by
  rw [splitLinesAux.eq_def]
  split <;> simp_all

/-- `scanNl` is compositional: scanning `a ++ b` is scanning `a`, then
scanning `b` from the resulting buffer, concatenating the events. -/
theorem scanNl_append (a : Bytes) : ∀ (cur b : Bytes),
    scanNl cur (a ++ b) =
      ((scanNl (scanNl cur a).1 b).1,
       (scanNl cur a).2 ++ (scanNl (scanNl cur a).1 b).2) := by
  induction a with
  | nil => intro cur b; simp [scanNl_nil]
  | cons c rest ih =>
    intro cur b
    by_cases hc : c = 10
    · subst hc
      rw [List.cons_append, scanNl_nl, scanNl_nl, ih [] b]
      simp [List.append_assoc]
    · rw [List.cons_append, scanNl_other cur (rest ++ b) hc,
        scanNl_other cur rest hc, ih (cur ++ [c]) b]

/-- The buffer `scanNl` returns never contains a newline byte. -/
theorem scanNl_fst_no_nl (data : Bytes) : ∀ (cur : Bytes),
    10 ∉ cur → 10 ∉ (scanNl cur data).1 := by
  induction data with
  | nil => intro cur h; exact h
  | cons c rest ih =>
    intro cur h
    by_cases hc : c = 10
    · subst hc
      rw [scanNl_nl]
      exact ih [] (by simp)
    · rw [scanNl_other cur rest hc]
      exact ih (cur ++ [c]) (notMem_append_single h hc)

/-- A byte of the buffer returned by `scanNl` comes from the initial buffer
or the scanned data. -/
theorem scanNl_fst_subset (data : Bytes) : ∀ (cur : Bytes) (x : Nat),
    x ∈ (scanNl cur data).1 → x ∈ cur ∨ x ∈ data := by
  induction data with
  | nil => intro cur x hx; exact Or.inl hx
  | cons c rest ih =>
    intro cur x hx
    by_cases hc : c = 10
    · subst hc
      rw [scanNl_nl] at hx
      rcases ih [] x hx with h | h
      · cases h
      · exact Or.inr (List.mem_cons_of_mem _ h)
    · rw [scanNl_other cur rest hc] at hx
      rcases ih (cur ++ [c]) x hx with h | h
      · rcases List.mem_append.mp h with h' | h'
        · exact Or.inl h'
        · exact Or.inr (by rw [List.mem_singleton.mp h']; exact List.mem_cons_self _ _)
      · exact Or.inr (List.mem_cons_of_mem _ h)

/-- Scanning a newline-free chunk just appends it to the buffer. -/
theorem scanNl_no_nl_chunk (p : Bytes) : ∀ (cur data : Bytes),
    10 ∉ p → scanNl cur (p ++ data) = scanNl (cur ++ p) data := by
  induction p with
  | nil => intro cur data _; simp
  | cons c rest ih =>
    intro cur data hp
    have hc : c ≠ 10 := ne_of_notMem_cons hp
    rw [List.cons_append, scanNl_other cur (rest ++ data) hc,
      ih (cur ++ [c]) data (notMem_of_notMem_cons hp), List.append_assoc,
      List.singleton_append]

/-- On carriage-return-free data (and a terminator-free buffer),
`_processLogs`'s line walk computes exactly `scanNl`. -/
theorem goLines_splitLinesAux (data : Bytes) : ∀ (cur : Bytes),
    13 ∉ data → 10 ∉ cur → 13 ∉ cur →
    goLines (splitLinesAux cur data) = scanNl cur data := by
  induction data with
  | nil =>
    intro cur _ hc10 _
    by_cases hcur : cur = []
    · subst hcur; simp [splitLinesAux_nil, goLines, scanNl_nil]
    · rw [splitLinesAux_nil, if_neg hcur, scanNl_nil]
      have hlast : ¬cur.getLast? = some 10 := by
        intro h
        exact hc10 (mem_of_getLast?_eq h)
      simp [goLines, hlast]
  | cons c rest ih =>
    intro cur h13 hc10 hc13
    have h13rest : 13 ∉ rest := notMem_of_notMem_cons h13
    by_cases hc : c = 10
    · subst hc
      rw [splitLinesAux_nl, scanNl_nl]
      have hlast : (cur ++ [10]).getLast? = some 10 := by
        simp [List.getLast?_concat]
      simp only [goLines, hlast, if_pos rfl, if_true]
      rw [ih [] h13rest (by simp) (by simp)]
    · have hc13' : c ≠ 13 := ne_of_notMem_cons h13
      rw [splitLinesAux_other cur rest hc hc13', scanNl_other cur rest hc]
      exact ih (cur ++ [c]) h13rest (notMem_append_single hc10 hc)
        (notMem_append_single hc13 hc13')

/-- The buffer returned by `scanNl` is carriage-return free when buffer and
data are. -/
theorem scanNl_fst_no_cr {data cur : Bytes} (hc : 13 ∉ cur) (hd : 13 ∉ data) :
    13 ∉ (scanNl cur data).1 := by
  intro hm
  rcases scanNl_fst_subset data cur 13 hm with h | h
  · exact hc h
  · exact hd h

theorem nlLines_nil (cur : Bytes) : nlLines cur [] = [] := rfl

theorem nlLines_nl (cur rest : Bytes) :
    nlLines cur (10 :: rest) = (cur ++ [10]) :: nlLines [] rest := by
  simp [nlLines]

theorem nlLines_other (cur : Bytes) {c : Nat} (rest : Bytes) (hc : c ≠ 10) :
    nlLines cur (c :: rest) = nlLines (cur ++ [c]) rest := by
  simp [nlLines, hc]

/-- The events of `scanNl` are the per-line results of `processLine` over
the complete lines, in order. -/
theorem scanNl_snd_filterMap (data : Bytes) : ∀ (cur : Bytes),
    (scanNl cur data).2 = (nlLines cur data).filterMap processLine := by
  induction data with
  | nil => intro cur; simp [scanNl_nil, nlLines_nil]
  | cons c rest ih =>
    intro cur
    by_cases hc : c = 10
    · subst hc
      rw [scanNl_nl, nlLines_nl]
      cases hp : processLine (cur ++ [10]) <;>
        simp [List.filterMap_cons, hp, ih []]
    · rw [scanNl_other cur rest hc, nlLines_other cur rest hc]
      exact ih (cur ++ [c])

/-- On carriage-return-free input, one `_processLogs` call computes
`scanNl`. -/
theorem feedOne_eq_scanNl (pbuf data : Bytes) (h10 : 10 ∉ pbuf)
    (h13 : 13 ∉ pbuf) (hd : 13 ∉ data) : feedOne pbuf data = scanNl pbuf data := by
  have hboth : 13 ∉ pbuf ++ data := by
    intro hm
    rcases List.mem_append.mp hm with h | h
    · exact h13 h
    · exact hd h
  calc feedOne pbuf data = scanNl [] (pbuf ++ data) :=
        goLines_splitLinesAux (pbuf ++ data) [] hboth (by simp) (by simp)
    _ = scanNl ([] ++ pbuf) data := scanNl_no_nl_chunk pbuf [] data h10
    _ = scanNl pbuf data := by rw [List.nil_append]

/-- Feeding a carriage-return-free stream chunk by chunk computes `scanNl`
of the whole stream: chunk boundaries are invisible. -/
theorem feedMany_eq_scanNl (cs : List Bytes) : ∀ (pbuf : Bytes),
    10 ∉ pbuf → 13 ∉ pbuf → (∀ c ∈ cs, 13 ∉ c) →
    feedMany pbuf cs = scanNl pbuf cs.flatten := by
  induction cs with
  | nil => intro pbuf _ _ _; simp [feedMany, scanNl_nil]
  | cons c rest ih =>
    intro pbuf h10 h13 hcs
    have hc13 : 13 ∉ c := hcs c (List.mem_cons_self _ _)
    have hrest : ∀ d ∈ rest, 13 ∉ d := fun d hd => hcs d (List.mem_cons_of_mem _ hd)
    have hfo : feedOne pbuf c = scanNl pbuf c := feedOne_eq_scanNl pbuf c h10 h13 hc13
    have h10' : 10 ∉ (scanNl pbuf c).1 := scanNl_fst_no_nl c pbuf h10
    have h13' : 13 ∉ (scanNl pbuf c).1 := scanNl_fst_no_cr h13 hc13
    show ((feedMany (feedOne pbuf c).1 rest).1,
      (feedOne pbuf c).2 ++ (feedMany (feedOne pbuf c).1 rest).2) = _
    rw [hfo, ih (scanNl pbuf c).1 h10' h13' hrest, List.flatten_cons,
      scanNl_append c pbuf rest.flatten]

/-- What `scanNl` keeps as buffer is a suffix of the input cut right after
a newline (or the whole input when it has none). -/
theorem scanNl_retention (data : Bytes) : ∀ (cur : Bytes),
    ∃ pre, cur ++ data = pre ++ (scanNl cur data).1 ∧
      (pre = [] ∨ pre.getLast? = some 10) := by
  induction data with
  | nil => intro cur; exact ⟨[], by simp [scanNl_nil], Or.inl rfl⟩
  | cons c rest ih =>
    intro cur
    by_cases hc : c = 10
    · subst hc
      obtain ⟨pre', hpre', hend⟩ := ih []
      have hrest : rest = pre' ++ (scanNl [] rest).1 := by simpa using hpre'
      refine ⟨cur ++ 10 :: pre', ?_, Or.inr ?_⟩
      · rw [scanNl_nl]
        calc cur ++ 10 :: rest
            = cur ++ 10 :: (pre' ++ (scanNl [] rest).1) := by rw [← hrest]
          _ = (cur ++ 10 :: pre') ++ (scanNl [] rest).1 := by
              simp [List.append_assoc]
      · rcases hend with h | h
        · subst h
          simp [List.getLast?_concat]
        · have h2 : (10 :: pre').getLast? = some 10 := by
            rw [show (10 :: pre') = [10] ++ pre' from rfl, List.getLast?_append, h]
            rfl
          rw [List.getLast?_append, h2]
          rfl
    · obtain ⟨pre, hpre, hend⟩ := ih (cur ++ [c])
      rw [scanNl_other cur rest hc]
      refine ⟨pre, ?_, hend⟩
      rw [show cur ++ c :: rest = (cur ++ [c]) ++ rest by simp, hpre]

/-- `Size.unpack (Size.pack n) = n` for lengths below `2 ^ 64`. -/
theorem unpackSize_pack8 (n : Nat) (h : n < 2 ^ 64) :
    unpackSize (pack8 n) = some n := by
  simp only [unpackSize, pack8, le64, List.foldr, List.length_cons,
    List.length_nil]
  norm_num
  omega

/-- Unfolding equation for `readerRunAux` on one call. -/
theorem readerRunAux_cons (s : ReaderState) (h p : Bytes)
    (rest : List (Bytes × Bytes)) :
    readerRunAux s ((h, p) :: rest) =
      match readerProcess s h p with
      | none => none
      | some (s2, out) =>
        match readerRunAux s2 rest with
        | none => none
        | some (s3, outs) => some (s3, out.toList ++ outs) := rfl

/-- Invariant of payload chunk delivery: with `pre` already buffered and the
rest of the message arriving in nonempty chunks, the reader completes with
exactly the message `P` and a reset state. -/
theorem readerRunAux_chunks (P : Bytes) : ∀ (cs : List Bytes) (pre : Bytes),
    cs ≠ [] → (∀ c ∈ cs, c ≠ []) → pre ++ cs.flatten = P →
    pre.length < P.length →
    readerRunAux ⟨P.length - pre.length, pre⟩
        (cs.map (fun c => (([] : Bytes), c))) = some (⟨0, []⟩, [P]) := by
  intro cs
  induction cs with
  | nil => intro pre h; cases h rfl
  | cons c rest ih =>
    intro pre _ hne hflat hlen
    have hc : c ≠ [] := hne c (List.mem_cons_self _ _)
    have hrem : ¬(P.length - pre.length = 0) := by omega
    cases rest with
    | nil =>
      have hPc : pre ++ c = P := by simpa using hflat
      have hlen2 : pre.length + c.length = P.length := by
        rw [← hPc]; simp
      have hrem2 : P.length - pre.length - c.length = 0 := by omega
      have hproc : readerProcess ⟨P.length - pre.length, pre⟩ [] c =
          some (⟨0, []⟩, some (pre ++ c)) := by
        simp only [readerProcess, if_neg hrem, if_pos hrem2]
      simp only [List.map_cons, List.map_nil, readerRunAux_cons, hproc,
        readerRunAux, hPc, Option.toList_some, List.append_nil]
    | cons d rs =>
      have hd : d ≠ [] := hne d (List.mem_cons_of_mem _ (List.mem_cons_self _ _))
      have hflat' : (pre ++ c) ++ (d :: rs).flatten = P := by
        rw [← hflat]; simp [List.append_assoc]
      have hdpos : 0 < (d :: rs).flatten.length := by
        rw [List.flatten_cons, List.length_append]
        have : 0 < d.length := List.length_pos.mpr hd
        omega
      have hlen' : (pre ++ c).length < P.length := by
        rw [← hflat']
        simp only [List.length_append]
        omega
      have hlc : (pre ++ c).length = pre.length + c.length := by simp
      have hrem2 : ¬(P.length - pre.length - c.length = 0) := by omega
      have hstep := ih (pre ++ c) (by simp) (fun x hx => hne x (List.mem_cons_of_mem _ hx))
        hflat' hlen'
      have hsub : P.length - (pre ++ c).length = P.length - pre.length - c.length := by
        rw [hlc]; omega
      rw [hsub] at hstep
      have hproc : readerProcess ⟨P.length - pre.length, pre⟩ [] c =
          some (⟨P.length - pre.length - c.length, pre ++ c⟩, none) := by
        simp only [readerProcess, if_neg hrem, if_neg hrem2]
      rw [List.map_cons, readerRunAux_cons, hproc]
      simp only [hstep, Option.toList_none, List.nil_append]

/-- `k` dispatch cycles on an idle sender allocate the ids
`reqId + 1, …, reqId + k` in order, pair them with the first `k` queued
commands, and consume those commands. -/
theorem runCyclesN_spec : ∀ (k : Nat) (s : EngineView), s.sender = none →
    k ≤ s.queue.length →
    runCyclesN k s =
      ⟨s.reqId + k,
       s.pending ++ (List.range' (s.reqId + 1) k).zip ((s.queue.take k).map Prod.snd),
       s.queue.drop k, none⟩ := by
  intro k
  induction k with
  | zero =>
    intro s hs _
    cases s with
    | mk r p q sd =>
      simp only at hs
      subst hs
      simp [runCyclesN]
  | succ k ih =>
    intro s hs hk
    obtain ⟨q0, qrest, hq⟩ : ∃ q0 qrest, s.queue = q0 :: qrest := by
      cases hq' : s.queue with
      | nil => rw [hq'] at hk; simp at hk
      | cons a l => exact ⟨a, l, rfl⟩
    have hcyc : engineCycle s =
        ⟨s.reqId + 1, s.pending ++ [(s.reqId + 1, q0.2)], qrest, none⟩ := by
      cases s with
      | mk r p q sd =>
        simp only at hs hq
        subst hs
        subst hq
        cases q0 with
        | mk cmd residx =>
          simp [engineCycle, engineWakeup, engineWriteDone, getRequestId]
    have hk' : k ≤ qrest.length := by
      rw [hq] at hk
      simpa using hk
    rw [show runCyclesN (k + 1) s = runCyclesN k (engineCycle s) from rfl, hcyc,
      ih _ rfl (by simpa using hk')]
    simp only [hq, List.range'_succ]
    simp [List.append_assoc]
    omega

/-! ## Claims -/

/-- C1: when the worker is killed or a transport or protocol error reaches
the engine loop, the `except:` branch of `_communicate` resolves every
entry still in the pending-request table with the synthetic crash response
whose errcode is `ERR_IOPROCESS_CRASH = 100001` and sets each completion
event (unblocking all waiting callers); the `finally:` branch then starts a
fresh worker generation via `_run()` exactly when the client is still
open. -/
theorem C1_crash_drains_table_and_restarts (tbl : List (Nat × CmdResultM)) :
    (failAllPending tbl).map Prod.fst = tbl.map Prod.fst ∧
    (∀ kv ∈ failAllPending tbl,
      kv.2.event = true ∧ kv.2.result = some crashResponse) ∧
    crashResponse.errcode = some ERR_IOPROCESS_CRASH ∧
    ERR_IOPROCESS_CRASH = 100001 ∧
    (∀ stillOpen : Bool, finallyRestart true stillOpen = stillOpen) := by
  refine ⟨?_, ?_, rfl, rfl, ?_⟩
  · simp [failAllPending]
  · intro kv hkv
    simp only [failAllPending, List.mem_map] at hkv
    obtain ⟨a, _, rfl⟩ := hkv
    exact ⟨rfl, rfl⟩
  · intro b; cases b <;> rfl

/-- Witness for C1 at a one-entry table. -/
theorem C1_witness :
    ((1 : Nat), (⟨true, some crashResponse⟩ : CmdResultM)).2.event = true ∧
    ((1 : Nat), (⟨true, some crashResponse⟩ : CmdResultM)).2.result =
      some crashResponse :=
  (C1_crash_drains_table_and_restarts [(1, ⟨false, none⟩)]).2.1
    (1, ⟨true, some crashResponse⟩) (by simp [failAllPending])

/-- C2 counterexample: the claim says the Client assigns the request id
before the command is enqueued and that the engine loop does not allocate
ids at dequeue.  In the code, `_sendCommand`'s enqueue leaves the counter
at 0 and the queued item carries no id, while the engine's dequeue branch
calls `_getRequestId` and allocates id 1. -/
theorem C2_counterexample :
    (sendCommandEnqueue ⟨0, [], [], none⟩ ("ping", Val.null) 0).reqId = 0 ∧
    (sendCommandEnqueue ⟨0, [], [], none⟩ ("ping", Val.null) 0).queue =
      [(("ping", Val.null), 0)] ∧
    (engineWakeup (sendCommandEnqueue ⟨0, [], [], none⟩ ("ping", Val.null) 0)).reqId
      = 1 ∧
    (engineWakeup (sendCommandEnqueue ⟨0, [], [], none⟩ ("ping", Val.null) 0)).pending
      = [(1, 0)] :=
  ⟨rfl, rfl, rfl, rfl⟩

/-- C2 (amended): request ids come from the per-client counter, starting at
1 and strictly increasing, and are never reused; but they are allocated by
the engine loop when it dequeues a command (`_getRequestId`, line 158), not
by the Client before enqueue — `_sendCommand`'s enqueue leaves the counter
untouched and enqueues an id-less item. -/
theorem C2_amended_engine_assigns_monotone_ids (q : List (Cmd × Nat)) (k : Nat)
    (cmd : Cmd) (i : Nat) (hk : k ≤ q.length) :
    (sendCommandEnqueue ⟨0, [], q, none⟩ cmd i).reqId = 0 ∧
    (sendCommandEnqueue ⟨0, [], q, none⟩ cmd i).queue = q ++ [(cmd, i)] ∧
    (runCyclesN k ⟨0, [], q, none⟩).pending.map Prod.fst = List.range' 1 k ∧
    List.Pairwise (· < ·) ((runCyclesN k ⟨0, [], q, none⟩).pending.map Prod.fst) := by
  have hspec := runCyclesN_spec k ⟨0, [], q, none⟩ rfl hk
  have hmap : (runCyclesN k ⟨0, [], q, none⟩).pending.map Prod.fst =
      List.range' 1 k := by
    rw [hspec]
    simp only [List.nil_append]
    rw [List.map_fst_zip]
    simp [List.length_take, Nat.min_eq_left hk]
  exact ⟨rfl, rfl, hmap, by rw [hmap]; exact List.pairwise_lt_range' 1 k⟩

/-- Witness for C2 at a two-command queue. -/
theorem C2_witness :
    (sendCommandEnqueue ⟨0, [], [(("a", Val.null), 5), (("b", Val.null), 7)], none⟩
        ("c", Val.null) 9).reqId = 0 ∧
    (sendCommandEnqueue ⟨0, [], [(("a", Val.null), 5), (("b", Val.null), 7)], none⟩
        ("c", Val.null) 9).queue =
      [(("a", Val.null), 5), (("b", Val.null), 7)] ++ [(("c", Val.null), 9)] ∧
    (runCyclesN 2 ⟨0, [], [(("a", Val.null), 5), (("b", Val.null), 7)], none⟩).pending.map
        Prod.fst = List.range' 1 2 ∧
    List.Pairwise (· < ·)
      ((runCyclesN 2 ⟨0, [], [(("a", Val.null), 5), (("b", Val.null), 7)], none⟩).pending.map
        Prod.fst) :=
  C2_amended_engine_assigns_monotone_ids
    [(("a", Val.null), 5), (("b", Val.null), 7)] 2 ("c", Val.null) 9 (by decide)

/-- C3 counterexample: byte-at-a-time delivery that splits the 8-byte
length header is fatal, not equivalent to one-shot delivery: the header
read returning a single byte makes `Size.unpack` raise (`none` = fatal)
whereas whole delivery of the same message decodes the payload; and on an
incomplete (short) payload feed the engine does not continue the
generation: `_communicate` returns (`quietReturn`), tearing the generation
down. -/
theorem C3_counterexample :
    readerRunAux ⟨0, []⟩ [(pack8 1, [88])] = some (⟨0, []⟩, [[88]]) ∧
    readerProcess ⟨0, []⟩ [1] [] = none ∧
    engineOnReadPipe (readerProcess ⟨0, []⟩ (pack8 2) [65]) =
      EngineReadAction.quietReturn := by decide

/-- C3 (amended): provided the 8-byte length header arrives in a single
read, the assembler is insensitive to payload fragmentation: delivering the
payload in any sequence of nonempty chunks (one byte at a time in
particular) produces the same single decoded message as delivering it in
one read, and each non-header feed appends exactly the bytes read,
decrements the remaining count by their number, and reports completion
exactly when the declared length is fully buffered.  (The engine itself
returns — ending the generation — on any feed that reports incompletion,
line 134.) -/
theorem C3_amended_payload_fragmentation (P : Bytes) (cs : List Bytes)
    (hP : P ≠ []) (hcs : cs ≠ []) (hne : ∀ c ∈ cs, c ≠ [])
    (hflat : cs.flatten = P) (hlen : P.length < 2 ^ 64) :
    readerRun (pack8 P.length) cs = some (⟨0, []⟩, [P]) ∧
    readerRun (pack8 P.length) [P] = some (⟨0, []⟩, [P]) ∧
    (∀ (s : ReaderState) (h chunk : Bytes), s.dataRemaining ≠ 0 →
      chunk.length ≤ s.dataRemaining →
      readerProcess s h chunk =
        if chunk.length = s.dataRemaining then
          some (⟨0, []⟩, some (s.dataBuffer ++ chunk))
        else
          some (⟨s.dataRemaining - chunk.length, s.dataBuffer ++ chunk⟩, none)) := by
  have hup : unpackSize (pack8 P.length) = some P.length :=
    unpackSize_pack8 _ hlen
  have hL0 : P.length ≠ 0 := by
    cases P with
    | nil => cases hP rfl
    | cons a l => simp
  have hheader : ∀ c2 : Bytes,
      readerProcess ⟨0, []⟩ (pack8 P.length) c2 =
        if P.length - c2.length = 0 then some (⟨0, []⟩, some c2)
        else some (⟨P.length - c2.length, c2⟩, none) := by
    intro c2
    simp only [readerProcess, hup, if_pos rfl, if_true, List.nil_append]
  have hsingle : readerRun (pack8 P.length) [P] = some (⟨0, []⟩, [P]) := by
    simp only [readerRun, List.map_nil, readerRunAux_cons, hheader P,
      Nat.sub_self, if_pos rfl, if_true, readerRunAux, Option.toList_some,
      List.append_nil]
  refine ⟨?_, hsingle, ?_⟩
  · obtain ⟨c, rest, rfl⟩ : ∃ c rest, cs = c :: rest := by
      cases cs with
      | nil => cases hcs rfl
      | cons a l => exact ⟨a, l, rfl⟩
    cases rest with
    | nil =>
      have hc : c = P := by simpa using hflat
      subst hc
      exact hsingle
    | cons d rs =>
      have hd : d ≠ [] := hne d (List.mem_cons_of_mem _ (List.mem_cons_self _ _))
      have hflat' : c ++ (d :: rs).flatten = P := by simpa using hflat
      have hdpos : 0 < (d :: rs).flatten.length := by
        rw [List.flatten_cons, List.length_append]
        have : 0 < d.length := List.length_pos.mpr hd
        omega
      have hlenc : c.length < P.length := by
        rw [← hflat']
        simp only [List.length_append]
        omega
      have hrem2 : ¬(P.length - c.length = 0) := by omega
      have hstep := readerRunAux_chunks P (d :: rs) c (by simp)
        (fun x hx => hne x (List.mem_cons_of_mem _ hx)) hflat' hlenc
      simp only [readerRun, List.map_cons]
      rw [readerRunAux_cons, hheader c, if_neg hrem2]
      simp only [List.map_cons] at hstep
      simp only [hstep, Option.toList_none, List.nil_append]
  · intro s h chunk hrem hle
    simp only [readerProcess, if_neg hrem]
    rcases eq_or_ne chunk.length s.dataRemaining with he | he
    · rw [if_pos (show s.dataRemaining - chunk.length = 0 by omega), if_pos he]
    · rw [if_neg (show ¬(s.dataRemaining - chunk.length = 0) by omega), if_neg he]

/-- Witness for C3: the payload `[65, 66]` delivered one byte at a time. -/
theorem C3_witness :
    readerRun (pack8 (List.length [65, 66])) [[65], [66]] =
      some (⟨0, []⟩, [[65, 66]]) :=
  (C3_amended_payload_fragmentation [65, 66] [[65], [66]] (by decide) (by decide)
    (by decide) (by decide) (by decide)).1

/-- C4 counterexample: the claim says `process` returns true iff the
pending buffer is empty after the call's write.  With pending `[1]` and the
descriptor accepting 1 byte, the buffer is empty after the write yet the
call returns false; the later no-op call on the empty buffer returns
true. -/
theorem C4_counterexample :
    dataSenderProcess [1] 1 = ([], false) ∧
    dataSenderProcess [] 7 = ([], true) := by decide

/-- C4 (amended): `DataSender.process` returns true iff the pending buffer
is already empty when the call starts (performing no write in that case);
when it is nonempty the call writes, trims exactly the written prefix and
returns false — so completion is reported on the call after the one that
wrote the last byte. -/
theorem C4_amended_completion_reported_late (p : Bytes) (n : Nat) :
    ((dataSenderProcess p n).2 = true ↔ p = []) ∧
    (p = [] → dataSenderProcess p n = ([], true)) ∧
    (p ≠ [] → dataSenderProcess p n = (p.drop n, false)) := by
  by_cases hp : p = [] <;> simp [dataSenderProcess, hp]

/-- Witness for C4. -/
theorem C4_witness :
    ((dataSenderProcess [3, 4] 1).2 = true ↔ ([3, 4] : Bytes) = []) ∧
    (([3, 4] : Bytes) = [] → dataSenderProcess [3, 4] 1 = ([], true)) ∧
    (([3, 4] : Bytes) ≠ [] →
      dataSenderProcess [3, 4] 1 = (([3, 4] : Bytes).drop 1, false)) :=
  C4_amended_completion_reported_late [3, 4] 1

/-- C5: once the completion event is set with a well-formed response,
`_sendCommand` returns the `result` field when `errcode` is 0 or absent
(`None` when `result` is absent), and raises an `OSError` carrying exactly
the non-zero `errcode` together with `errstr` (or `os.strerror(errcode)`
when `errstr` is absent). -/
theorem C5_errcode_dispatch (strerror : Int → String) (resp : Resp) :
    (resp.errcode.getD 0 = 0 →
      sendCommandFinish strerror true (some resp) =
        some (SendOutcome.ok resp.result)) ∧
    (∀ e : Int, resp.errcode = some e → e ≠ 0 →
      sendCommandFinish strerror true (some resp) =
        some (SendOutcome.oserror e (resp.errstr.getD (strerror e)))) := by
  constructor
  · intro h0
    simp [sendCommandFinish, h0]
  · intro e he hne
    simp [sendCommandFinish, he, hne]

/-- Witness for C5: a success response and an error response. -/
theorem C5_witness :
    sendCommandFinish (fun _ => "E") true (some ⟨none, none, none, some Val.null⟩) =
      some (SendOutcome.ok (some Val.null)) ∧
    sendCommandFinish (fun _ => "E") true (some ⟨none, some 5, some "boom", none⟩) =
      some (SendOutcome.oserror 5 "boom") :=
  ⟨(C5_errcode_dispatch (fun _ => "E") ⟨none, none, none, some Val.null⟩).1 rfl,
   (C5_errcode_dispatch (fun _ => "E") ⟨none, some 5, some "boom", none⟩).2 5 rfl
     (by decide)⟩

/-- C6: when the completion event is not set within the caller's wait,
`_sendCommand` raises `Timeout`, and the timing-out caller performs no
table operation — the pending table passes through unchanged; the retained
entry is later resolved either by a matching response (`deliverResponse`
stores the response and sets the event) or by the crash bulk-failure
(`failAllPending` sets every event). -/
theorem C6_timeout_retains_entry (tbl : List (Nat × CmdResultM))
    (strerror : Int → String) (res : CmdResultM) (hev : res.event = false) :
    sendCommandAfterWait tbl strerror res = (tbl, some SendOutcome.timeout) ∧
    (∀ (k : Nat) (e : CmdResultM) (rest : List (Nat × CmdResultM)) (r : Resp),
      lookupRemove k tbl = (some e, rest) →
      deliverResponse tbl k r = (rest, some ⟨true, some r⟩)) ∧
    (∀ kv ∈ failAllPending tbl, kv.2.event = true) := by
  refine ⟨?_, ?_, ?_⟩
  · simp [sendCommandAfterWait, sendCommandFinish, hev]
  · intro k e rest r hlook
    simp [deliverResponse, hlook]
  · intro kv hkv
    simp only [failAllPending, List.mem_map] at hkv
    obtain ⟨a, _, rfl⟩ := hkv
    rfl

/-- Witness for C6 at a one-entry table. -/
theorem C6_witness :
    sendCommandAfterWait [(1, ⟨false, none⟩)] (fun _ => "E") ⟨false, none⟩ =
      ([(1, ⟨false, none⟩)], some SendOutcome.timeout) :=
  (C6_timeout_retains_entry [(1, ⟨false, none⟩)] (fun _ => "E") ⟨false, none⟩
    rfl).1

/-- C7 counterexample: with a carriage-return byte in the stream the claim
fails.  For the stream `"x\rZ\n" ++ "\nINFO|a|b\n"`, feeding it in those
two chunks emits events (a malformed warning and an INFO record) while
feeding it whole emits none — so split and whole feeds disagree; and for
the whole feed `"x\rINFO|a|b\n"` (which ends in a newline, so the claimed
retained partial buffer is empty) the code retains `"x\r"` and routes the
complete INFO line nowhere. -/
theorem C7_counterexample :
    feedMany [] [[120, 13, 90, 10], [10, 73, 78, 70, 79, 124, 97, 124, 98, 10]] ≠
      feedOne [] [120, 13, 90, 10, 10, 73, 78, 70, 79, 124, 97, 124, 98, 10] ∧
    (feedOne [] [120, 13, 73, 78, 70, 79, 124, 97, 124, 98, 10]).1 = [120, 13] ∧
    (feedOne [] [120, 13, 73, 78, 70, 79, 124, 97, 124, 98, 10]).2 = [] := by
  decide

/-- C7 (amended): for carriage-return-free diagnostic streams the claim
holds: feeding the stream split at arbitrary byte boundaries produces
exactly the events of feeding it whole; the retained buffer is the
newline-free tail of the stream (the bytes after its last newline, empty
when the stream ends in one) and is prefixed to the next feed; and the
events are precisely `processLine` of each complete newline-terminated
line in order — routing by level, one malformed-log warning per
unparseable line. -/
theorem C7_amended_cr_free_reassembly (s : Bytes) (cs : List Bytes)
    (hflat : cs.flatten = s) (hcr : 13 ∉ s) :
    feedMany [] cs = feedOne [] s ∧
    10 ∉ (feedOne [] s).1 ∧
    (∃ pre, s = pre ++ (feedOne [] s).1 ∧ (pre = [] ∨ pre.getLast? = some 10)) ∧
    (feedOne [] s).2 = (nlLines [] s).filterMap processLine := by
  have hfo : feedOne [] s = scanNl [] s :=
    feedOne_eq_scanNl [] s (by simp) (by simp) hcr
  have hchunks : ∀ c ∈ cs, 13 ∉ c := by
    intro c hc hm
    exact hcr (hflat ▸ List.mem_flatten.mpr ⟨c, hc, hm⟩)
  refine ⟨?_, ?_, ?_, ?_⟩
  · rw [feedMany_eq_scanNl cs [] (by simp) (by simp) hchunks, hflat, hfo]
  · rw [hfo]
    exact scanNl_fst_no_nl s [] (by simp)
  · rw [hfo]
    obtain ⟨pre, hp, he⟩ := scanNl_retention s []
    exact ⟨pre, by simpa using hp, he⟩
  · rw [hfo]
    exact scanNl_snd_filterMap s []

/-- Witness for C7: `"INFO|a|b\nx"` split into two chunks. -/
theorem C7_witness :
    feedMany [] [[73, 78, 70, 79, 124, 97], [124, 98, 10, 120]] =
      feedOne [] [73, 78, 70, 79, 124, 97, 124, 98, 10, 120] :=
  (C7_amended_cr_free_reassembly [73, 78, 70, 79, 124, 97, 124, 98, 10, 120]
    [[73, 78, 70, 79, 124, 97], [124, 98, 10, 120]] (by decide) (by decide)).1

/-- C8: after `close()` flips `_isRunning` and closes the wakeup
descriptors, an `invoke` fails synchronously in the calling thread with
`Closed` (the wakeup write fails with `EBADF`, not `EAGAIN`, and
`_pingPoller` converts it); the engine loop, seeing `_isRunning` false,
exits before handling any readiness event (so the command is never
dispatched to a worker), and the crash-path restart guard does not spawn a
new worker for a closed client. -/
theorem C8_invoke_after_close_raises_closed (s : ClientFlags)
    (q : List (Cmd × Nat)) (cmd : Cmd) (i : Nat) (w : WriteOutcome)
    (hrun : s.isRunning = true) :
    (closeClient s).isRunning = false ∧
    (closeClient s).eventFdsOpen = false ∧
    (sendCommandStart (closeClient s) q cmd i w).2 =
      Except.error PingErr.closed ∧
    loopCheck true false = LoopStep.exitShutdown ∧
    (∀ alive : Bool, finallyRestart alive false = false) := by
  have hc : closeClient s = ⟨false, false⟩ := by
    simp [closeClient, hrun]
  refine ⟨by rw [hc], by rw [hc], ?_, rfl, ?_⟩
  · rw [hc]
    simp [sendCommandStart, writeToEventFd, pingPoller, EBADF, EAGAIN]
  · intro alive
    cases alive <;> rfl

/-- Witness for C8. -/
theorem C8_witness :
    (sendCommandStart (closeClient ⟨true, true⟩) [] ("ping", Val.null) 0
        WriteOutcome.ok).2 = Except.error PingErr.closed :=
  (C8_invoke_after_close_raises_closed ⟨true, true⟩ [] ("ping", Val.null) 0
    WriteOutcome.ok rfl).2.2.1

/-- C9: the per-client id counter is not reset by a restart: `restartView`
(the new generation started by `_run`, with a fresh empty pending table and
no sender) preserves `_reqId`, so a first generation dispatching `k1`
commands uses ids `1, …, k1` and the next generation continues with
`k1 + 1, …, k1 + k2` — every id of a later generation is strictly greater
than every id of an earlier one, so no two requests of the same client
ever share an id. -/
theorem C9_ids_fresh_across_generations (q1 q2 : List (Cmd × Nat))
    (k1 k2 : Nat) (h1 : k1 ≤ q1.length) (h2 : k2 ≤ q2.length) :
    (∀ s : EngineView, (restartView s).reqId = s.reqId ∧
      (restartView s).pending = []) ∧
    (runCyclesN k1 ⟨0, [], q1, none⟩).pending.map Prod.fst = List.range' 1 k1 ∧
    (runCyclesN k2 (restartView ⟨(runCyclesN k1 ⟨0, [], q1, none⟩).reqId,
        (runCyclesN k1 ⟨0, [], q1, none⟩).pending, q2, none⟩)).pending.map Prod.fst =
      List.range' (k1 + 1) k2 ∧
    (∀ i ∈ List.range' 1 k1, ∀ j ∈ List.range' (k1 + 1) k2, i < j) := by
  have hs1 := runCyclesN_spec k1 ⟨0, [], q1, none⟩ rfl h1
  have hmap1 : (runCyclesN k1 ⟨0, [], q1, none⟩).pending.map Prod.fst =
      List.range' 1 k1 := by
    rw [hs1]
    simp only [List.nil_append]
    rw [List.map_fst_zip]
    simp [List.length_take, Nat.min_eq_left h1]
  have hr : restartView ⟨(runCyclesN k1 ⟨0, [], q1, none⟩).reqId,
      (runCyclesN k1 ⟨0, [], q1, none⟩).pending, q2, none⟩ =
      (⟨k1, [], q2, none⟩ : EngineView) := by
    rw [hs1]
    simp [restartView]
  have hs2 := runCyclesN_spec k2 ⟨k1, [], q2, none⟩ rfl h2
  have hmap2 : (runCyclesN k2 (⟨k1, [], q2, none⟩ : EngineView)).pending.map
      Prod.fst = List.range' (k1 + 1) k2 := by
    rw [hs2]
    simp only [List.nil_append]
    rw [List.map_fst_zip]
    simp [List.length_take, Nat.min_eq_left h2]
  refine ⟨fun s => ⟨rfl, rfl⟩, hmap1, by rw [hr]; exact hmap2, ?_⟩
  intro i hi j hj
  obtain ⟨a, ha, rfl⟩ := List.mem_range'.mp hi
  obtain ⟨b, hb, rfl⟩ := List.mem_range'.mp hj
  omega

/-- Witness for C9: one command per generation. -/
theorem C9_witness :
    (runCyclesN 1 ⟨0, [], [(("a", Val.null), 0)], none⟩).pending.map Prod.fst =
      List.range' 1 1 :=
  (C9_ids_fresh_across_generations [(("a", Val.null), 0)] [(("b", Val.null), 1)]
    1 1 (by decide) (by decide)).2.1

/-- C10: a complete newline-terminated line whose stripped text splits into
exactly three pipe-separated fields but whose level is none of ERROR,
WARNING, DEBUG, INFO is silently discarded: `processLine` yields no event
at all (no sink call, no malformed-log warning) and feeding the line leaves
an empty buffer and no events. -/
theorem C10_unknown_level_silently_dropped (body lvl dom msg : Bytes)
    (h10 : 10 ∉ body) (h13 : 13 ∉ body)
    (hsplit : splitPipe2 (stripB (body ++ [10])) = [lvl, dom, msg])
    (hE : lvl ≠ ERRORb) (hW : lvl ≠ WARNINGb) (hD : lvl ≠ DEBUGb)
    (hI : lvl ≠ INFOb) :
    processLine (body ++ [10]) = none ∧
    feedOne [] (body ++ [10]) = ([], []) := by
  have hpl : processLine (body ++ [10]) = none := by
    simp [processLine, hsplit, hE, hW, hD, hI]
  refine ⟨hpl, ?_⟩
  have h13' : 13 ∉ body ++ [10] := notMem_append_single h13 (by decide)
  rw [feedOne_eq_scanNl [] (body ++ [10]) (by simp) (by simp) h13',
    scanNl_no_nl_chunk body [] [10] h10, List.nil_append, scanNl_nl,
    scanNl_nil, hpl]
  rfl

/-- Witness for C10: the line `"TRACE|x|y\n"`. -/
theorem C10_witness :
    processLine ([84, 82, 65, 67, 69, 124, 120, 124, 121] ++ [10]) = none ∧
    feedOne [] ([84, 82, 65, 67, 69, 124, 120, 124, 121] ++ [10]) = ([], []) :=
  C10_unknown_level_silently_dropped [84, 82, 65, 67, 69, 124, 120, 124, 121]
    [84, 82, 65, 67, 69] [120] [121] (by decide) (by decide) (by decide)
    (by decide) (by decide) (by decide) (by decide)

end IOProcessModel
